import Mathlib

/-!
Verification of the skill-scaffolding utilities of marcoby/openclaw-coolify.

The repository consists of four command-line scripts:
  * `create_skill.py`   - scaffolds a new skill directory with a SKILL.md document,
  * `implement_action.py` - writes an action script into an existing skill and
    appends a documentation block to SKILL.md,
  * `search_skills.py`  - thin wrapper around the external `clawhub search` command,
  * `install_skill.py`  - thin wrapper around `clawhub install` (not needed by any claim).

We model the filesystem as a set of directories (paths) plus a partial map from
paths to file contents and permission modes.  Paths are segment lists, so
`os.path.join a b` becomes list append with a singleton.  Python string
primitives used by the scripts (`strip`, `startswith`, `title`, `replace`,
substring membership `in`) are embedded as executable functions on `List Char`.
Fallible I/O steps (each `try` block of the scripts) are driven by explicit
Boolean success flags, one per exception point of the source.
-/

set_option maxHeartbeats 1000000

namespace OpenClaw

/-! ### Python string primitives -/

/-- The whitespace characters stripped by the Python method "strip" (ASCII range). -/
def pyWs (c : Char) : Bool :=
  c = ' ' || c = '\t' || c = '\n' || c = '\r' || c = '\x0b' || c = '\x0c'

/-- Strip leading and trailing whitespace from a character list, as Python "strip". -/
def pyStripL (l : List Char) : List Char :=
  ((l.dropWhile pyWs).reverse.dropWhile pyWs).reverse

/-- Python "str.strip()". -/
def pyStrip (s : String) : String := ⟨pyStripL s.data⟩

/-- Does the list `l` begin with the list `pat`?  (Python "startswith" at list level.) -/
def hasPre : List Char → List Char → Bool
  | [], _ => true
  | _ :: _, [] => false
  | a :: ps, b :: ls => if a = b then hasPre ps ls else false

/-- Python "s.startswith(pre)". -/
def pyStartsWith (s pre : String) : Bool := hasPre pre.data s.data

/-- Does `pat` occur as a contiguous sublist of `l`?  (Python "in" at list level.) -/
def isSubAt : List Char → List Char → Bool
  | pat, [] => hasPre pat []
  | pat, b :: ls => hasPre pat (b :: ls) || isSubAt pat ls

/-- Python substring membership "pat in s". -/
def containsSub (s pat : String) : Bool := isSubAt pat.data s.data

/-- Python "s.replace(a, b)" for single characters `a`, `b`. -/
def pyReplace (s : String) (a b : Char) : String :=
  ⟨s.data.map fun c => if c = a then b else c⟩

/-- Python "str.title()" at list level: the Boolean argument records whether the
previous character was cased (alphabetic). -/
def pyTitleL : Bool → List Char → List Char
  | _, [] => []
  | prevCased, c :: cs =>
    let cased := c.isAlpha
    (if cased then (if prevCased then c.toLower else c.toUpper) else c) :: pyTitleL cased cs

/-- Python "str.title()". -/
def pyTitle (s : String) : String := ⟨pyTitleL false s.data⟩

/-! ### Filesystem model -/

/-- A filesystem path, as the list of its segments. -/
abbrev Path := List String

/-- The filesystem: a set of existing directories and a partial map from paths
to (content, permission mode) pairs. -/
structure FS where
  dirs : List Path
  files : Path → Option (String × Nat)

/-- The outcome of running one of the scripts: the resulting filesystem, the
process exit status, and the lines printed to the console. -/
structure RunResult where
  fs : FS
  exit : Nat
  log : List String

/-- os.path.exists: a path exists if it is a directory or a file. -/
def pathExists (fs : FS) (p : Path) : Bool :=
  decide (p ∈ fs.dirs) || (fs.files p).isSome

/-- All nonempty prefixes of a path, innermost last. -/
def prefixes : Path → List Path
  | [] => []
  | a :: rest => [a] :: (prefixes rest).map (fun q => a :: q)

/-- os.makedirs: create the directory `p` together with all its ancestors. -/
def makedirs (fs : FS) (p : Path) : FS :=
  { fs with dirs := prefixes p ++ fs.dirs }

/-- Read the content of the file at `p`, if it exists. -/
def readFile (fs : FS) (p : Path) : Option String := (fs.files p).map (·.1)

/-- The permission mode of the file at `p`, if it exists. -/
def fileMode (fs : FS) (p : Path) : Option Nat := (fs.files p).map (·.2)

/-- Python open(p, "w") followed by writing `c`: truncate or create the file.
A pre-existing file keeps its mode; a fresh file gets the default mode 0o644. -/
def writeFile (fs : FS) (p : Path) (c : String) : FS :=
  { fs with files := fun q =>
      if q = p then some (c, ((fs.files p).map (·.2)).getD 420) else fs.files q }

/-- os.chmod on an existing file. -/
def chmod (fs : FS) (p : Path) (m : Nat) : FS :=
  { fs with files := fun q =>
      if q = p then (fs.files p).map (fun e => (e.1, m)) else fs.files q }

/-- Python open(p, "a") followed by writing `s`: append to the file
(creating it when absent, as the append mode does). -/
def appendFile (fs : FS) (p : Path) (s : String) : FS :=
  { fs with files := fun q =>
      if q = p then
        some (((fs.files p).map (·.1)).getD "" ++ s, ((fs.files p).map (·.2)).getD 420)
      else fs.files q }

/-- Render a path for console messages. -/
def pathStr (p : Path) : String := String.intercalate "/" p

/-! ### create_skill.py -/

/-- Success flags for the two exception points inside the try block of
`create_skill`: the os.makedirs calls and the SKILL.md write. -/
structure CreateEnv where
  mkdirsOk : Bool
  writeOk : Bool

/-- The literal `metadata_json` string of `create_skill.py`. -/
def metadataJson : String :=
  "\x7b\"openclaw\": \x7b\"emoji\": \"✨\", \"requires\": \x7b\"bins\": [], \"env\": []\x7d\x7d\x7d"

/-- The `skill_md_content` f-string of `create_skill.py`. -/
def skillMdContent (name description : String) : String :=
  "---\nname: " ++ name ++ "\ndescription: " ++ description ++ "\nmetadata: " ++
  metadataJson ++ "\n---\n\n# " ++ pyTitle (pyReplace name '-' ' ') ++ "\n\n" ++
  description ++ "\n\n## Actions\n\n"

/-- Embedding of `create_skill(name, description)` from `create_skill.py`.
`skills_root` is the resolved skills root directory; `env` drives the
exception points of the try block. -/
def create_skill (fs : FS) (skills_root : Path) (name description : String)
    (env : CreateEnv) : RunResult :=
  let skill_dir : Path := skills_root ++ [name]
  let scripts_dir : Path := skill_dir ++ ["scripts"]
  if pathExists fs skill_dir then
    ⟨fs, 1, ["Error: Skill " ++ name ++ " already exists at " ++ pathStr skill_dir]⟩
  else if env.mkdirsOk = false then
    ⟨fs, 1, ["Error creating skill: <io error>"]⟩
  else
    let fs1 := makedirs fs scripts_dir
    if env.writeOk = false then
      ⟨fs1, 1, ["Created directory: " ++ pathStr skill_dir,
                "Created directory: " ++ pathStr scripts_dir,
                "Error creating skill: <io error>"]⟩
    else
      ⟨writeFile fs1 (skill_dir ++ ["SKILL.md"]) (skillMdContent name description), 0,
        ["Created directory: " ++ pathStr skill_dir,
         "Created directory: " ++ pathStr scripts_dir,
         "Created SKILL.md for " ++ name]⟩

/-! ### implement_action.py -/

/-- Success flags for the two try blocks of `implement_action`:
the script write (open/write/chmod) and the SKILL.md update. -/
structure ActionEnv where
  scriptWriteOk : Bool
  mdUpdateOk : Bool

/-- Both try blocks succeed. -/
def okEnv : ActionEnv := ⟨true, true⟩

/-- The script extension inference of `implement_action.py` (lines 23-28):
default ".sh", Python markers first, then JavaScript markers, each tested
with startswith on the stripped code. -/
def inferExt (code : String) : String :=
  if pyStartsWith (pyStrip code) "#!/usr/bin/env python" ||
     pyStartsWith (pyStrip code) "import " then ".py"
  else if pyStartsWith (pyStrip code) "#!/usr/bin/env node" ||
          pyStartsWith (pyStrip code) "const " then ".js"
  else ".sh"

/-- The level-3 heading used for an action in SKILL.md:
"### " followed by the title-cased, underscore-to-space form of the action name. -/
def actionHeading (action_name : String) : String :=
  "### " ++ pyTitle (pyReplace action_name '_' ' ')

/-- The `new_action_block` f-string of `implement_action.py`. -/
def newActionBlock (action_name description script_filename : String) : String :=
  "\n" ++ actionHeading action_name ++ "\n" ++ description ++ "\n```bash\n" ++
  "{baseDir}/scripts/" ++ script_filename ++ "\n```\n"

/-- The duplicate-documentation warning of `implement_action.py`. -/
def dupWarning (action_name : String) : String :=
  "Warning: Action " ++ action_name ++
  " seems to already exist in SKILL.md. Skipping markdown update."

/-- Embedding of `implement_action(skill_name, action_name, description, code)`
from `implement_action.py`.  `skills_root` is the resolved skills root;
`env` drives the two try blocks. -/
def implement_action (fs : FS) (skills_root : Path)
    (skill_name action_name description code : String) (env : ActionEnv) : RunResult :=
  let skill_dir : Path := skills_root ++ [skill_name]
  let skill_md_path : Path := skill_dir ++ ["SKILL.md"]
  let scripts_dir : Path := skill_dir ++ ["scripts"]
  if pathExists fs skill_dir = false then
    ⟨fs, 1, ["Error: Skill " ++ skill_name ++ " not found at " ++ pathStr skill_dir]⟩
  else
    let fs0 := if pathExists fs scripts_dir then fs else makedirs fs scripts_dir
    let script_ext := inferExt code
    let script_filename := action_name ++ script_ext
    let script_path : Path := scripts_dir ++ [script_filename]
    if env.scriptWriteOk = false then
      ⟨fs0, 1, ["Error writing script file: <io error>"]⟩
    else
      let fs1 := chmod (writeFile fs0 script_path code) script_path 493
      let log1 := ["Created script: " ++ pathStr script_path]
      if env.mdUpdateOk = false then
        ⟨fs1, 0, log1 ++ ["Error updating SKILL.md: <io error>"]⟩
      else
        match readFile fs1 skill_md_path with
        | none => ⟨fs1, 0, log1 ++ ["Error updating SKILL.md: <io error>"]⟩
        | some content =>
          if containsSub content (actionHeading action_name) then
            ⟨fs1, 0, log1 ++ [dupWarning action_name]⟩
          else
            let block := newActionBlock action_name description script_filename
            if containsSub content "## Actions" then
              ⟨appendFile fs1 skill_md_path block, 0,
                log1 ++ ["Updated SKILL.md for " ++ skill_name]⟩
            else
              ⟨appendFile fs1 skill_md_path ("\n## Actions\n" ++ block), 0,
                log1 ++ ["Updated SKILL.md for " ++ skill_name]⟩

/-! ### search_skills.py -/

/-- The outcome of running the external `clawhub` tool: normal exit with
captured stdout/stderr, non-zero exit (CalledProcessError), or the binary
being absent from the path (FileNotFoundError). -/
inductive ToolOutcome where
  | ok (stdout stderr : String)
  | fail (stdout stderr : String)
  | missing

/-- Embedding of `search_skills(query)` from `search_skills.py`, as a function
of the external tool invocation's outcome.  Returns (exit status, printed lines). -/
def search_skills (outcome : ToolOutcome) : Nat × List String :=
  match outcome with
  | .ok out _ =>
    let output := pyStrip out
    if output = "" then (0, ["No skills found matching your query."])
    else (0, [output])
  | .fail _ err =>
    (1, ["Error searching skills: <called process error>"] ++
      (if err = "" then [] else ["Details: " ++ err]))
  | .missing =>
    (1, ["Error: clawhub CLI not found. Is it installed in the OpenClaw container?"])

/-! ### Spec-side definitions and witness fixtures -/

/-- The spec-side ordered rule list for extension inference: Python markers
first, then JavaScript markers, with a default fallback. -/
def ruleList : List (List String × String) :=
  [(["#!/usr/bin/env python", "import "], ".py"),
   (["#!/usr/bin/env node", "const "], ".js")]

/-- Apply an ordered (markers, extension) rule list to a string, returning the
extension of the first matching rule, else the default. -/
def classifyExt : List (List String × String) → String → String → String
  | [], dflt, _ => dflt
  | (ms, e) :: rest, dflt, s =>
    if ms.any (fun m => pyStartsWith s m) then e else classifyExt rest dflt s

/-- A filesystem holding the skills root and one skill directory named demo,
with no files. -/
def demoFS : FS := ⟨[["skills"], ["skills", "demo"]], fun _ => none⟩

/-- A filesystem holding only the skills root directory. -/
def bareFS : FS := ⟨[["skills"]], fun _ => none⟩

/-- The demo skill with a minimal SKILL.md holding an empty Actions section. -/
def demoMdFS : FS :=
  ⟨[["skills"], ["skills", "demo"]],
   fun q => if q = ["skills", "demo", "SKILL.md"] then some ("## Actions\n", 420) else none⟩

/-- The demo skill whose SKILL.md mentions the heading of an undocumented
action only inside a fenced code block. -/
def fenceFS : FS :=
  ⟨[["skills"], ["skills", "demo"]],
   fun q => if q = ["skills", "demo", "SKILL.md"] then
     some ("x\n```\n### Do Thing\n```\n", 420) else none⟩

/-! ### Basic lemmas about the string primitives -/

lemma dropWhile_dropWhile (p : Char → Bool) (l : List Char) :
    (l.dropWhile p).dropWhile p = l.dropWhile p := by
  induction l with
  | nil => rfl
  | cons a t ih =>
    by_cases h : p a
    · simp [List.dropWhile_cons, h, ih]
    · simp [List.dropWhile_cons, h]

lemma length_dropWhile_le (p : Char → Bool) (l : List Char) :
    (l.dropWhile p).length ≤ l.length := by
  induction l with
  | nil => simp
  | cons a t ih =>
    by_cases h : p a
    · simp [List.dropWhile_cons, h]; omega
    · simp [List.dropWhile_cons, h]

lemma exists_append_dropWhile (p : Char → Bool) (l : List Char) :
    ∃ s, s ++ l.dropWhile p = l := by
  induction l with
  | nil => exact ⟨[], rfl⟩
  | cons a t ih =>
    by_cases h : p a
    · obtain ⟨s, hs⟩ := ih
      exact ⟨a :: s, by simp [List.dropWhile_cons, h, hs]⟩
    · exact ⟨[], by simp [List.dropWhile_cons, h]⟩

lemma head_not_of_dropWhile_eq_self {p : Char → Bool} {a : Char} {t : List Char}
    (h : (a :: t).dropWhile p = a :: t) : p a = false := by
  by_contra hc
  have ha : p a = true := by revert hc; cases p a <;> simp
  rw [List.dropWhile_cons, if_pos ha] at h
  have := length_dropWhile_le p t
  have := congrArg List.length h
  simp at this
  omega

lemma stripL_idem (l : List Char) : pyStripL (pyStripL l) = pyStripL l := by
  have hY : (l.dropWhile pyWs).dropWhile pyWs = l.dropWhile pyWs :=
    dropWhile_dropWhile pyWs l
  set Y := l.dropWhile pyWs with hYdef
  set X := (Y.reverse.dropWhile pyWs).reverse with hXdef
  have hXL : pyStripL l = X := by rw [pyStripL]
  have stepB : X.reverse.dropWhile pyWs = X.reverse := by
    rw [hXdef, List.reverse_reverse]
    exact dropWhile_dropWhile pyWs Y.reverse
  have stepA : X.dropWhile pyWs = X := by
    obtain ⟨s, hs⟩ := exists_append_dropWhile pyWs Y.reverse
    have hXY : X ++ s.reverse = Y := by
      have := congrArg List.reverse hs
      simpa [hXdef] using this
    cases hX : X with
    | nil => simp
    | cons a X2 =>
      have hYcons : Y = a :: (X2 ++ s.reverse) := by rw [← hXY, hX]; simp
      have hpa : pyWs a = false := by
        apply head_not_of_dropWhile_eq_self (t := X2 ++ s.reverse)
        rw [← hYcons]; exact hY
      rw [List.dropWhile_cons, if_neg (by simp [hpa])]
  rw [hXL, pyStripL, stepA, stepB, List.reverse_reverse]

lemma strip_strip (s : String) : pyStrip (pyStrip s) = pyStrip s := by
  show (⟨pyStripL (pyStripL s.data)⟩ : String) = ⟨pyStripL s.data⟩
  rw [stripL_idem]

lemma dropWhile_append_all {p : Char → Bool} :
    ∀ pre l : List Char, (∀ c ∈ pre, p c = true) → (pre ++ l).dropWhile p = l.dropWhile p := by
  intro pre
  induction pre with
  | nil => intro l _; rfl
  | cons a t ih =>
    intro l h
    have ha : p a = true := h a (by simp)
    rw [List.cons_append, List.dropWhile_cons, if_pos ha]
    exact ih l (fun c hc => h c (by simp [hc]))

lemma strip_ws_append (pre s : String) (h : ∀ c ∈ pre.data, pyWs c = true) :
    pyStrip (pre ++ s) = pyStrip s := by
  show (⟨pyStripL (pre.data ++ s.data)⟩ : String) = ⟨pyStripL s.data⟩
  rw [pyStripL, pyStripL, dropWhile_append_all pre.data s.data h]

lemma hasPre_append_self (l t : List Char) : hasPre l (l ++ t) = true := by
  induction l with
  | nil => rfl
  | cons a r ih => simp [hasPre, ih]

lemma isSubAt_append_left (pat s t : List Char) (h : isSubAt pat t = true) :
    isSubAt pat (s ++ t) = true := by
  induction s with
  | nil => simpa using h
  | cons a r ih =>
    rw [List.cons_append, isSubAt]
    simp [ih]

lemma containsSub_append_right (s t pat : String) (h : containsSub t pat = true) :
    containsSub (s ++ t) pat = true := by
  show isSubAt pat.data (s.data ++ t.data) = true
  exact isSubAt_append_left pat.data s.data t.data h

lemma isSubAt_of_hasPre (pat l : List Char) (h : hasPre pat l = true) :
    isSubAt pat l = true := by
  cases l with
  | nil => simpa [isSubAt] using h
  | cons a t => rw [isSubAt]; simp [h]

lemma data_append (s t : String) : (s ++ t).data = s.data ++ t.data := rfl

lemma containsSub_newActionBlock (a d fn : String) :
    containsSub (newActionBlock a d fn) (actionHeading a) = true := by
  have hn : ("\n" : String).data = ['\n'] := rfl
  have hblock : (newActionBlock a d fn).data =
      '\n' :: ((actionHeading a).data ++
        ("\n" ++ d ++ "\n```bash\n" ++ "{baseDir}/scripts/" ++ fn ++ "\n```\n").data) := by
    rw [newActionBlock]
    simp [data_append, hn, List.append_assoc]
  rw [containsSub, hblock, isSubAt]
  have h1 : isSubAt (actionHeading a).data
      ((actionHeading a).data ++
        ("\n" ++ d ++ "\n```bash\n" ++ "{baseDir}/scripts/" ++ fn ++ "\n```\n").data) = true :=
    isSubAt_of_hasPre _ _ (hasPre_append_self _ _)
  rw [h1, Bool.or_true]

/-! ### Basic lemmas about the filesystem model -/

lemma files_makedirs (fs : FS) (p : Path) : (makedirs fs p).files = fs.files := rfl

lemma readFile_writeFile_self (fs : FS) (p : Path) (c : String) :
    readFile (writeFile fs p c) p = some c := by
  simp [readFile, writeFile]

lemma files_writeFile_ne (fs : FS) (p q : Path) (c : String) (h : q ≠ p) :
    (writeFile fs p c).files q = fs.files q := by
  simp [writeFile, h]

lemma readFile_chmod_self (fs : FS) (p : Path) (m : Nat) :
    readFile (chmod fs p m) p = readFile fs p := by
  simp [readFile, chmod]
  cases fs.files p <;> rfl

lemma files_chmod_ne (fs : FS) (p q : Path) (m : Nat) (h : q ≠ p) :
    (chmod fs p m).files q = fs.files q := by
  simp [chmod, h]

lemma readFile_appendFile_self (fs : FS) (p : Path) (s content : String)
    (h : readFile fs p = some content) :
    readFile (appendFile fs p s) p = some (content ++ s) := by
  simp [readFile, appendFile]
  rcases hf : fs.files p with _ | e
  · rw [readFile, hf] at h; simp at h
  · rw [readFile, hf] at h; simp at h; simp [h]

lemma files_appendFile_ne (fs : FS) (p q : Path) (s : String) (h : q ≠ p) :
    (appendFile fs p s).files q = fs.files q := by
  simp [appendFile, h]

lemma ne_of_length_ne {α : Type} {a b : List α} (h : a.length ≠ b.length) : a ≠ b :=
  fun e => h (e ▸ rfl)

lemma mdPath_ne_scriptPath (d : Path) (x : String) :
    d ++ ["SKILL.md"] ≠ (d ++ ["scripts"]) ++ [x] := by
  apply ne_of_length_ne
  simp

lemma files_ite_makedirs (fs : FS) (c : Prop) [Decidable c] (p : Path) :
    (if c then fs else makedirs fs p).files = fs.files := by
  split <;> rfl

/-! ### Claims -/

/-- Claim C2: for every name and description, if the skill directory already
exists, create_skill exits with status 1 and performs no filesystem mutation. -/
theorem claim_C2 (fs : FS) (root : Path) (name description : String) (env : CreateEnv)
    (h : pathExists fs (root ++ [name]) = true) :
    (create_skill fs root name description env).exit = 1 ∧
    (create_skill fs root name description env).fs = fs := by
  simp [create_skill, h]

/-- Witness for C2 on a concrete filesystem where the skill demo exists. -/
theorem claim_C2_witness :
    pathExists demoFS (["skills"] ++ ["demo"]) = true ∧
    (create_skill demoFS ["skills"] "demo" "d" ⟨true, true⟩).exit = 1 ∧
    (create_skill demoFS ["skills"] "demo" "d" ⟨true, true⟩).fs = demoFS := by
  have h : pathExists demoFS (["skills"] ++ ["demo"]) = true := by decide
  exact ⟨h, (claim_C2 demoFS ["skills"] "demo" "d" ⟨true, true⟩ h).1,
         (claim_C2 demoFS ["skills"] "demo" "d" ⟨true, true⟩ h).2⟩

/-- Claim C3: for every skill name whose directory does not exist,
implement_action creates no file at all (the filesystem is unchanged)
and terminates with exit status 1. -/
theorem claim_C3 (fs : FS) (root : Path) (skill act desc code : String) (env : ActionEnv)
    (h : pathExists fs (root ++ [skill]) = false) :
    (implement_action fs root skill act desc code env).exit = 1 ∧
    (implement_action fs root skill act desc code env).fs = fs := by
  simp [implement_action, h]

/-- Witness for C3 on a concrete filesystem with no skill directory. -/
theorem claim_C3_witness :
    pathExists bareFS (["skills"] ++ ["ghost"]) = false ∧
    (implement_action bareFS ["skills"] "ghost" "run" "d" "echo" okEnv).exit = 1 ∧
    (implement_action bareFS ["skills"] "ghost" "run" "d" "echo" okEnv).fs = bareFS := by
  have h : pathExists bareFS (["skills"] ++ ["ghost"]) = false := by decide
  exact ⟨h, (claim_C3 bareFS ["skills"] "ghost" "run" "d" "echo" okEnv h).1,
         (claim_C3 bareFS ["skills"] "ghost" "run" "d" "echo" okEnv h).2⟩

/-- Claim C4: in implement_action, a script-write failure is fatal (exit 1,
no file map change at all, hence no metadata update); a metadata-update failure
only reports, exits 0, and the already-written script file remains while
SKILL.md is untouched. -/
theorem claim_C4 (fs : FS) (root : Path) (skill act desc code : String) (b : Bool)
    (h : pathExists fs (root ++ [skill]) = true) :
    ((implement_action fs root skill act desc code ⟨false, b⟩).exit = 1 ∧
     (implement_action fs root skill act desc code ⟨false, b⟩).fs.files = fs.files) ∧
    ((implement_action fs root skill act desc code ⟨true, false⟩).exit = 0 ∧
     readFile (implement_action fs root skill act desc code ⟨true, false⟩).fs
       ((root ++ [skill] ++ ["scripts"]) ++ [act ++ inferExt code]) = some code ∧
     (implement_action fs root skill act desc code ⟨true, false⟩).fs.files
       (root ++ [skill] ++ ["SKILL.md"]) = fs.files (root ++ [skill] ++ ["SKILL.md"])) := by
  have hne : root ++ [skill, "SKILL.md"] ≠ root ++ [skill, "scripts", act ++ inferExt code] := by
    apply ne_of_length_ne; simp
  refine ⟨⟨?_, ?_⟩, ?_, ?_, ?_⟩
  · simp [implement_action, h]
  · simp [implement_action, h, files_ite_makedirs]
  · simp [implement_action, h]
  · simp [implement_action, h, readFile_chmod_self, readFile_writeFile_self]
  · simp [implement_action, h]
    rw [files_chmod_ne _ _ _ _ hne, files_writeFile_ne _ _ _ _ hne, files_ite_makedirs]

/-- Witness for C4 on a concrete filesystem where the skill demo exists. -/
theorem claim_C4_witness :
    pathExists demoFS (["skills"] ++ ["demo"]) = true ∧
    (implement_action demoFS ["skills"] "demo" "run" "d" "echo" ⟨false, true⟩).exit = 1 ∧
    (implement_action demoFS ["skills"] "demo" "run" "d" "echo" ⟨true, false⟩).exit = 0 := by
  have h : pathExists demoFS (["skills"] ++ ["demo"]) = true := by decide
  exact ⟨h, ((claim_C4 demoFS ["skills"] "demo" "run" "d" "echo" true h).1).1,
         ((claim_C4 demoFS ["skills"] "demo" "run" "d" "echo" true h).2).1⟩

lemma readFile_ite_makedirs (fs : FS) (c : Prop) [Decidable c] (p q : Path) :
    readFile (if c then fs else makedirs fs p) q = readFile fs q := by
  split <;> rfl

lemma files_chmod_writeFile_self (fs : FS) (p : Path) (c : String) (m : Nat) :
    (chmod (writeFile fs p c) p m).files p = some (c, m) := by
  simp [chmod, writeFile]

/-- Claim C6: for an existing skill and a fresh action name, a successful
implement_action writes exactly one new file, at the action's path in the
skill's scripts directory, whose content equals code and whose mode is 0o755
(493); every other path's file-existence status is unchanged. -/
theorem claim_C6 (fs : FS) (root : Path) (skill act desc code : String)
    (h : pathExists fs (root ++ [skill]) = true)
    (hfresh : fs.files (root ++ [skill, "scripts", act ++ inferExt code]) = none) :
    (implement_action fs root skill act desc code okEnv).exit = 0 ∧
    (implement_action fs root skill act desc code okEnv).fs.files
      (root ++ [skill, "scripts", act ++ inferExt code]) = some (code, 493) ∧
    (fs.files (root ++ [skill, "scripts", act ++ inferExt code])).isSome = false ∧
    (∀ q : Path, q ≠ root ++ [skill, "scripts", act ++ inferExt code] →
      ((implement_action fs root skill act desc code okEnv).fs.files q).isSome =
        (fs.files q).isSome) := by
  have hne : root ++ [skill, "SKILL.md"] ≠ root ++ [skill, "scripts", act ++ inferExt code] := by
    apply ne_of_length_ne; simp
  rcases hrf : fs.files (root ++ [skill, "SKILL.md"]) with _ | entry
  · refine ⟨?_, ?_, ?_, ?_⟩
    · simp [implement_action, h, okEnv, readFile, files_chmod_ne, files_writeFile_ne,
        files_ite_makedirs, hrf, hne]
    · simp [implement_action, h, okEnv, readFile, files_chmod_ne, files_writeFile_ne,
        files_ite_makedirs, hrf, hne, chmod, writeFile]
    · rw [hfresh]; rfl
    · intro q hq
      simp [implement_action, h, okEnv, readFile, files_chmod_ne, files_writeFile_ne,
        files_ite_makedirs, hrf, hne, chmod, writeFile, hq]
  · obtain ⟨content, m⟩ := entry
    by_cases hdup : containsSub content (actionHeading act) = true
    · refine ⟨?_, ?_, ?_, ?_⟩
      · simp [implement_action, h, okEnv, readFile, files_chmod_ne, files_writeFile_ne,
          files_ite_makedirs, hrf, hne, hdup]
      · simp [implement_action, h, okEnv, readFile, files_chmod_ne, files_writeFile_ne,
          files_ite_makedirs, hrf, hne, hdup, chmod, writeFile]
      · rw [hfresh]; rfl
      · intro q hq
        simp [implement_action, h, okEnv, readFile, files_chmod_ne, files_writeFile_ne,
          files_ite_makedirs, hrf, hne, hdup, chmod, writeFile, hq]
    · by_cases hact : containsSub content "## Actions" = true
      · refine ⟨?_, ?_, ?_, ?_⟩
        · simp [implement_action, h, okEnv, readFile, files_chmod_ne, files_writeFile_ne,
            files_ite_makedirs, hrf, hne, hdup, hact]
        · simp [implement_action, h, okEnv, readFile, files_chmod_ne, files_writeFile_ne,
            files_ite_makedirs, hrf, hne, hdup, hact, appendFile, chmod, writeFile, hne.symm]
        · rw [hfresh]; rfl
        · intro q hq
          by_cases hq2 : q = root ++ [skill, "SKILL.md"]
          · subst hq2
            simp [implement_action, h, okEnv, readFile, files_chmod_ne, files_writeFile_ne,
              files_ite_makedirs, hrf, hne, hdup, hact, appendFile, chmod, writeFile]
          · simp [implement_action, h, okEnv, readFile, files_chmod_ne, files_writeFile_ne,
              files_ite_makedirs, hrf, hne, hdup, hact, appendFile, chmod, writeFile, hq, hq2]
      · refine ⟨?_, ?_, ?_, ?_⟩
        · simp [implement_action, h, okEnv, readFile, files_chmod_ne, files_writeFile_ne,
            files_ite_makedirs, hrf, hne, hdup, hact]
        · simp [implement_action, h, okEnv, readFile, files_chmod_ne, files_writeFile_ne,
            files_ite_makedirs, hrf, hne, hdup, hact, appendFile, chmod, writeFile, hne.symm]
        · rw [hfresh]; rfl
        · intro q hq
          by_cases hq2 : q = root ++ [skill, "SKILL.md"]
          · subst hq2
            simp [implement_action, h, okEnv, readFile, files_chmod_ne, files_writeFile_ne,
              files_ite_makedirs, hrf, hne, hdup, hact, appendFile, chmod, writeFile]
          · simp [implement_action, h, okEnv, readFile, files_chmod_ne, files_writeFile_ne,
              files_ite_makedirs, hrf, hne, hdup, hact, appendFile, chmod, writeFile, hq, hq2]

lemma string_ext {s t : String} (h : s.data = t.data) : s = t := by
  cases s; cases t; exact congrArg String.mk h

lemma containsSub_self_append (pat r : String) : containsSub (pat ++ r) pat = true := by
  show isSubAt pat.data (pat.data ++ r.data) = true
  exact isSubAt_of_hasPre _ _ (hasPre_append_self _ _)

lemma mem_prefixes_append (q t : Path) : q ≠ [] → q ∈ prefixes (q ++ t) := by
  induction q with
  | nil => intro h; exact absurd rfl h
  | cons a r ih =>
    intro _
    cases r with
    | nil => simp [prefixes]
    | cons b r2 =>
      rw [List.cons_append, prefixes]
      exact List.mem_cons_of_mem _ (List.mem_map_of_mem (fun q => a :: q) (ih (by simp)))

lemma pathExists_writeFile_mono (fs : FS) (p q : Path) (c : String)
    (h : pathExists fs q = true) : pathExists (writeFile fs p c) q = true := by
  by_cases hqp : q = p
  · subst hqp; simp [pathExists, writeFile]
  · simpa [pathExists, writeFile, hqp] using h

lemma pathExists_chmod_mono (fs : FS) (p q : Path) (m : Nat)
    (h : pathExists fs q = true) : pathExists (chmod fs p m) q = true := by
  by_cases hqp : q = p
  · subst hqp
    rcases hf : fs.files q with _ | e
    · simpa [pathExists, chmod, hf] using h
    · simp [pathExists, chmod, hf]
  · simpa [pathExists, chmod, hqp] using h

lemma pathExists_appendFile_mono (fs : FS) (p q : Path) (s : String)
    (h : pathExists fs q = true) : pathExists (appendFile fs p s) q = true := by
  by_cases hqp : q = p
  · subst hqp; simp [pathExists, appendFile]
  · simpa [pathExists, appendFile, hqp] using h

lemma pathExists_makedirs_mono (fs : FS) (p q : Path)
    (h : pathExists fs q = true) : pathExists (makedirs fs p) q = true := by
  simp [pathExists, makedirs, List.mem_append] at h ⊢
  tauto

lemma pathExists_ite_makedirs_mono (fs : FS) (c : Prop) [Decidable c] (p q : Path)
    (h : pathExists fs q = true) :
    pathExists (if c then fs else makedirs fs p) q = true := by
  split
  · exact h
  · exact pathExists_makedirs_mono fs p q h

lemma pathExists_implement_action_mono (fs : FS) (root : Path)
    (skill act desc code : String) (env : ActionEnv) (q : Path)
    (h : pathExists fs q = true) :
    pathExists (implement_action fs root skill act desc code env).fs q = true := by
  simp only [implement_action]
  split
  · exact h
  · split
    · exact pathExists_ite_makedirs_mono _ _ _ _ h
    · split
      · exact pathExists_chmod_mono _ _ _ _
          (pathExists_writeFile_mono _ _ _ _ (pathExists_ite_makedirs_mono _ _ _ _ h))
      · split
        · exact pathExists_chmod_mono _ _ _ _
            (pathExists_writeFile_mono _ _ _ _ (pathExists_ite_makedirs_mono _ _ _ _ h))
        · split
          · exact pathExists_chmod_mono _ _ _ _
              (pathExists_writeFile_mono _ _ _ _ (pathExists_ite_makedirs_mono _ _ _ _ h))
          · split
            · exact pathExists_appendFile_mono _ _ _ _ (pathExists_chmod_mono _ _ _ _
                (pathExists_writeFile_mono _ _ _ _ (pathExists_ite_makedirs_mono _ _ _ _ h)))
            · exact pathExists_appendFile_mono _ _ _ _ (pathExists_chmod_mono _ _ _ _
                (pathExists_writeFile_mono _ _ _ _ (pathExists_ite_makedirs_mono _ _ _ _ h)))

/-- When the action heading already occurs in SKILL.md, a successful
implement_action writes the script, leaves SKILL.md unchanged, and logs the
duplicate warning. -/
lemma implement_action_dup_branch (fs : FS) (root : Path)
    (skill act desc code content : String) (m : Nat)
    (h : pathExists fs (root ++ [skill]) = true)
    (hmd : fs.files (root ++ [skill, "SKILL.md"]) = some (content, m))
    (hdup : containsSub content (actionHeading act) = true) :
    (implement_action fs root skill act desc code okEnv).exit = 0 ∧
    (implement_action fs root skill act desc code okEnv).fs.files
      (root ++ [skill, "SKILL.md"]) = some (content, m) ∧
    (implement_action fs root skill act desc code okEnv).fs.files
      (root ++ [skill, "scripts", act ++ inferExt code]) = some (code, 493) ∧
    (implement_action fs root skill act desc code okEnv).log =
      ["Created script: " ++ pathStr (root ++ [skill, "scripts", act ++ inferExt code]),
       dupWarning act] := by
  have hne : root ++ [skill, "SKILL.md"] ≠ root ++ [skill, "scripts", act ++ inferExt code] := by
    apply ne_of_length_ne; simp
  refine ⟨?_, ?_, ?_, ?_⟩ <;>
    simp [implement_action, h, okEnv, readFile, files_ite_makedirs, hmd, hdup, hne,
      chmod, writeFile]

/-- Claim C5 counterexample: the string consisting of a newline followed by a
Python import statement has a literal prefix matching neither the Python nor
the JavaScript markers, so under the claim as stated it would get ".sh"; the
code infers ".py" for it. -/
theorem claim_C5_counterexample :
    pyStartsWith "\nimport os" "#!/usr/bin/env python" = false ∧
    pyStartsWith "\nimport os" "import " = false ∧
    pyStartsWith "\nimport os" "#!/usr/bin/env node" = false ∧
    pyStartsWith "\nimport os" "const " = false ∧
    inferExt "\nimport os" = ".py" ∧ (".py" : String) ≠ ".sh" := by decide

/-- Claim C5 (amended): the extension is determined by an ordered rule list of
literal-prefix markers applied to the whitespace-stripped code: Python markers
(interpreter directive or import statement) give ".py", else JavaScript markers
(interpreter directive or const declaration) give ".js", else the default ".sh". -/
theorem claim_C5 (code : String) :
    inferExt code = classifyExt ruleList ".sh" (pyStrip code) := by
  simp [inferExt, classifyExt, ruleList]

/-- Claim C8 counterexample: for captured stdout with leading whitespace, the
printed payload is the stripped text, not the captured output verbatim. -/
theorem claim_C8_counterexample :
    (search_skills (.ok "  hi\n" "")).2 = ["hi"] ∧
    ¬ ((search_skills (.ok "  hi\n" "")).2 = ["  hi\n"]) := by decide

/-- Claim C8 (amended): on a successful tool run, search exits 0; it prints the
no-results message when the trimmed stdout is empty, and otherwise prints the
whitespace-trimmed stdout (which equals the captured output only up to
surrounding whitespace). -/
theorem claim_C8 (out err : String) :
    (search_skills (.ok out err)).1 = 0 ∧
    (pyStrip out = "" →
      (search_skills (.ok out err)).2 = ["No skills found matching your query."]) ∧
    (pyStrip out ≠ "" → (search_skills (.ok out err)).2 = [pyStrip out]) := by
  by_cases h : pyStrip out = "" <;> simp [search_skills, h]

/-- Witness for C8 at an empty-after-trimming output and a non-empty one. -/
theorem claim_C8_witness :
    (pyStrip "  \n" = "" ∧
      (search_skills (.ok "  \n" "x")).2 = ["No skills found matching your query."]) ∧
    (pyStrip "  hi " ≠ "" ∧ (search_skills (.ok "  hi " "x")).2 = [pyStrip "  hi "]) :=
  ⟨⟨by decide, (claim_C8 "  \n" "x").2.1 (by decide)⟩,
   ⟨by decide, (claim_C8 "  hi " "x").2.2 (by decide)⟩⟩

/-- Claim C10: extension inference is invariant under surrounding whitespace:
prepending whitespace-only text to the code does not change the inferred
extension, and the extension of the code equals that of its stripped form. -/
theorem claim_C10 (code pre : String) (h : ∀ c ∈ pre.data, pyWs c = true) :
    inferExt (pre ++ code) = inferExt code ∧
    inferExt code = inferExt (pyStrip code) := by
  constructor
  · simp only [inferExt, strip_ws_append pre code h]
  · simp only [inferExt, strip_strip]

/-- Witness for C10 with two blank lines and a tab before an import statement. -/
theorem claim_C10_witness :
    (∀ c ∈ ("\n\n\t" : String).data, pyWs c = true) ∧
    inferExt ("\n\n\t" ++ "import os") = inferExt "import os" ∧
    inferExt "import os" = inferExt (pyStrip "import os") := by
  have h : ∀ c ∈ ("\n\n\t" : String).data, pyWs c = true := by decide
  exact ⟨h, (claim_C10 "import os" "\n\n\t" h).1, (claim_C10 "import os" "\n\n\t" h).2⟩

/-- Witness for C6: adding a fresh action run to the demo skill. -/
theorem claim_C6_witness :
    pathExists demoMdFS (["skills"] ++ ["demo"]) = true ∧
    demoMdFS.files (["skills"] ++ ["demo", "scripts", "run" ++ inferExt "echo hi"]) = none ∧
    (implement_action demoMdFS ["skills"] "demo" "run" "d" "echo hi" okEnv).exit = 0 ∧
    (implement_action demoMdFS ["skills"] "demo" "run" "d" "echo hi" okEnv).fs.files
      (["skills"] ++ ["demo", "scripts", "run" ++ inferExt "echo hi"]) =
      some ("echo hi", 493) := by
  have h1 : pathExists demoMdFS (["skills"] ++ ["demo"]) = true := by decide
  have h2 : demoMdFS.files
      (["skills"] ++ ["demo", "scripts", "run" ++ inferExt "echo hi"]) = none := by decide
  exact ⟨h1, h2, (claim_C6 demoMdFS ["skills"] "demo" "run" "d" "echo hi" h1 h2).1,
         (claim_C6 demoMdFS ["skills"] "demo" "run" "d" "echo hi" h1 h2).2.1⟩

/-- Claim C7: create_skill on a fresh name succeeds, creates the skill
directory, and writes a SKILL.md whose front matter opens with the name field
equal to name, whose body contains the description verbatim and the
hyphen-to-space, title-cased heading, and which ends with an empty Actions
heading. -/
theorem claim_C7 (fs : FS) (root : Path) (name desc : String)
    (h : pathExists fs (root ++ [name]) = false) :
    (create_skill fs root name desc ⟨true, true⟩).exit = 0 ∧
    pathExists (create_skill fs root name desc ⟨true, true⟩).fs (root ++ [name]) = true ∧
    readFile (create_skill fs root name desc ⟨true, true⟩).fs (root ++ [name, "SKILL.md"]) =
      some (skillMdContent name desc) ∧
    (∃ t, skillMdContent name desc = "---\nname: " ++ name ++ "\n" ++ t) ∧
    containsSub (skillMdContent name desc) desc = true ∧
    containsSub (skillMdContent name desc)
      ("# " ++ pyTitle (pyReplace name '-' ' ') ++ "\n") = true ∧
    (∃ s, skillMdContent name desc = s ++ "## Actions\n\n") := by
  refine ⟨?_, ?_, ?_, ?_, ?_, ?_, ?_⟩
  · simp [create_skill, h]
  · have hmem : (root ++ [name]) ∈ prefixes (root ++ [name, "scripts"]) := by
      have := mem_prefixes_append (root ++ [name]) ["scripts"] (by simp)
      simpa [List.append_assoc] using this
    have hred : (create_skill fs root name desc ⟨true, true⟩).fs =
        writeFile (makedirs fs (root ++ [name, "scripts"])) (root ++ [name, "SKILL.md"])
          (skillMdContent name desc) := by
      simp [create_skill, h]
    rw [hred]
    apply pathExists_writeFile_mono
    simp [pathExists, makedirs, List.mem_append, hmem]
  · simp [create_skill, h, readFile_writeFile_self]
  · refine ⟨"description: " ++ desc ++ "\nmetadata: " ++ metadataJson ++ "\n---\n\n# " ++
      pyTitle (pyReplace name '-' ' ') ++ "\n\n" ++ desc ++ "\n\n## Actions\n\n", ?_⟩
    apply string_ext
    have h1 : ("\ndescription: " : String).data = "\n".data ++ "description: ".data := rfl
    simp [skillMdContent, data_append, List.append_assoc, h1]
  · have hform : skillMdContent name desc =
        ("---\nname: " ++ name ++ "\ndescription: ") ++
          (desc ++ ("\nmetadata: " ++ metadataJson ++ "\n---\n\n# " ++
            pyTitle (pyReplace name '-' ' ') ++ "\n\n" ++ desc ++ "\n\n## Actions\n\n")) := by
      apply string_ext
      simp [skillMdContent, data_append, List.append_assoc]
    rw [hform]
    exact containsSub_append_right _ _ _ (containsSub_self_append _ _)
  · have hform : skillMdContent name desc =
        ("---\nname: " ++ name ++ "\ndescription: " ++ desc ++ "\nmetadata: " ++
          metadataJson ++ "\n---\n\n") ++
          (("# " ++ pyTitle (pyReplace name '-' ' ') ++ "\n") ++
            ("\n" ++ desc ++ "\n\n## Actions\n\n")) := by
      apply string_ext
      have h1 : ("\n---\n\n# " : String).data = "\n---\n\n".data ++ "# ".data := rfl
      have h2 : ("\n\n" : String).data = "\n".data ++ "\n".data := rfl
      simp [skillMdContent, data_append, List.append_assoc, h1, h2]
    rw [hform]
    exact containsSub_append_right _ _ _ (containsSub_self_append _ _)
  · refine ⟨"---\nname: " ++ name ++ "\ndescription: " ++ desc ++ "\nmetadata: " ++
      metadataJson ++ "\n---\n\n# " ++ pyTitle (pyReplace name '-' ' ') ++ "\n\n" ++
      desc ++ "\n\n", ?_⟩
    apply string_ext
    have h1 : ("\n\n## Actions\n\n" : String).data = "\n\n".data ++ "## Actions\n\n".data := rfl
    simp [skillMdContent, data_append, List.append_assoc, h1]

/-- Witness for C7: creating my-skill in a bare skills root. -/
theorem claim_C7_witness :
    pathExists bareFS (["skills"] ++ ["my-skill"]) = false ∧
    (create_skill bareFS ["skills"] "my-skill" "Does things" ⟨true, true⟩).exit = 0 ∧
    readFile (create_skill bareFS ["skills"] "my-skill" "Does things" ⟨true, true⟩).fs
      (["skills"] ++ ["my-skill", "SKILL.md"]) =
      some (skillMdContent "my-skill" "Does things") := by
  have h : pathExists bareFS (["skills"] ++ ["my-skill"]) = false := by decide
  exact ⟨h, (claim_C7 bareFS ["skills"] "my-skill" "Does things" h).1,
         (claim_C7 bareFS ["skills"] "my-skill" "Does things" h).2.2.1⟩

/-- Claim C9: duplicate-documentation detection is a substring test over the
whole SKILL.md document: whenever the action heading occurs anywhere in it
(for instance only inside a fenced code block, the action never having been
documented), the documentation append is skipped with a warning while the
script file is still written. -/
theorem claim_C9 (fs : FS) (root : Path) (skill act desc code content : String) (m : Nat)
    (h : pathExists fs (root ++ [skill]) = true)
    (hmd : fs.files (root ++ [skill, "SKILL.md"]) = some (content, m))
    (hdup : containsSub content (actionHeading act) = true) :
    (implement_action fs root skill act desc code okEnv).exit = 0 ∧
    (implement_action fs root skill act desc code okEnv).fs.files
      (root ++ [skill, "SKILL.md"]) = some (content, m) ∧
    (implement_action fs root skill act desc code okEnv).fs.files
      (root ++ [skill, "scripts", act ++ inferExt code]) = some (code, 493) ∧
    (implement_action fs root skill act desc code okEnv).log =
      ["Created script: " ++ pathStr (root ++ [skill, "scripts", act ++ inferExt code]),
       dupWarning act] :=
  implement_action_dup_branch fs root skill act desc code content m h hmd hdup

/-- Witness for C9: the heading occurs only inside a fenced code block, yet
the markdown update is skipped with the warning. -/
theorem claim_C9_witness :
    pathExists fenceFS (["skills"] ++ ["demo"]) = true ∧
    fenceFS.files (["skills"] ++ ["demo", "SKILL.md"]) =
      some ("x\n```\n### Do Thing\n```\n", 420) ∧
    containsSub "x\n```\n### Do Thing\n```\n" (actionHeading "do_thing") = true ∧
    (implement_action fenceFS ["skills"] "demo" "do_thing" "d" "echo" okEnv).fs.files
      (["skills"] ++ ["demo", "SKILL.md"]) = some ("x\n```\n### Do Thing\n```\n", 420) ∧
    (implement_action fenceFS ["skills"] "demo" "do_thing" "d" "echo" okEnv).log =
      ["Created script: " ++
        pathStr (["skills"] ++ ["demo", "scripts", "do_thing" ++ inferExt "echo"]),
       dupWarning "do_thing"] := by
  have h1 : pathExists fenceFS (["skills"] ++ ["demo"]) = true := by decide
  have h2 : fenceFS.files (["skills"] ++ ["demo", "SKILL.md"]) =
      some ("x\n```\n### Do Thing\n```\n", 420) := by decide
  have h3 : containsSub "x\n```\n### Do Thing\n```\n" (actionHeading "do_thing") = true := by
    decide
  exact ⟨h1, h2, h3,
    (claim_C9 fenceFS ["skills"] "demo" "do_thing" "d" "echo"
      "x\n```\n### Do Thing\n```\n" 420 h1 h2 h3).2.1,
    (claim_C9 fenceFS ["skills"] "demo" "do_thing" "d" "echo"
      "x\n```\n### Do Thing\n```\n" 420 h1 h2 h3).2.2.2⟩

/-- Claim C1 counterexample: after documenting action run with Python code
(script run.py), a second call with shell code does not overwrite the script
file: run.py keeps its old content and a new sibling run.sh appears. -/
theorem claim_C1_counterexample :
    (implement_action demoMdFS ["skills"] "demo" "run" "d1" "import os\n" okEnv).fs.files
      ["skills", "demo", "scripts", "run.py"] = some ("import os\n", 493) ∧
    (implement_action demoMdFS ["skills"] "demo" "run" "d1" "import os\n" okEnv).fs.files
      ["skills", "demo", "scripts", "run.sh"] = none ∧
    (implement_action
        (implement_action demoMdFS ["skills"] "demo" "run" "d1" "import os\n" okEnv).fs
        ["skills"] "demo" "run" "d2" "echo hi\n" okEnv).fs.files
      ["skills", "demo", "scripts", "run.py"] = some ("import os\n", 493) ∧
    (implement_action
        (implement_action demoMdFS ["skills"] "demo" "run" "d1" "import os\n" okEnv).fs
        ["skills"] "demo" "run" "d2" "echo hi\n" okEnv).fs.files
      ["skills", "demo", "scripts", "run.sh"] = some ("echo hi\n", 493) := by
  refine ⟨?_, ?_, ?_, ?_⟩ <;> decide

/-- Claim C1 (amended): calling implement_action a second time with the same
action_name writes the script at the path given by the second code's inferred
extension (overwriting the first script only when the extensions agree, and
creating a sibling file otherwise), while the documentation block is appended
at most once: the second call emits the duplicate warning and SKILL.md is
unchanged by it. -/
theorem claim_C1 (fs : FS) (root : Path)
    (skill act desc1 code1 desc2 code2 content : String) (m : Nat)
    (h : pathExists fs (root ++ [skill]) = true)
    (hmd : fs.files (root ++ [skill, "SKILL.md"]) = some (content, m))
    (hact : containsSub content "## Actions" = true)
    (hdup : containsSub content (actionHeading act) = false) :
    (implement_action fs root skill act desc1 code1 okEnv).exit = 0 ∧
    (implement_action (implement_action fs root skill act desc1 code1 okEnv).fs
        root skill act desc2 code2 okEnv).exit = 0 ∧
    (implement_action (implement_action fs root skill act desc1 code1 okEnv).fs
        root skill act desc2 code2 okEnv).fs.files
      (root ++ [skill, "scripts", act ++ inferExt code2]) = some (code2, 493) ∧
    (implement_action (implement_action fs root skill act desc1 code1 okEnv).fs
        root skill act desc2 code2 okEnv).fs.files (root ++ [skill, "SKILL.md"]) =
      (implement_action fs root skill act desc1 code1 okEnv).fs.files
        (root ++ [skill, "SKILL.md"]) ∧
    (implement_action (implement_action fs root skill act desc1 code1 okEnv).fs
        root skill act desc2 code2 okEnv).log =
      ["Created script: " ++ pathStr (root ++ [skill, "scripts", act ++ inferExt code2]),
       dupWarning act] := by
  have hne1 : root ++ [skill, "SKILL.md"] ≠ root ++ [skill, "scripts", act ++ inferExt code1] := by
    apply ne_of_length_ne; simp
  have h1exit : (implement_action fs root skill act desc1 code1 okEnv).exit = 0 := by
    simp [implement_action, h, okEnv, readFile, files_ite_makedirs, hmd, hdup, hact, hne1,
      chmod, writeFile]
  have h1md : (implement_action fs root skill act desc1 code1 okEnv).fs.files
      (root ++ [skill, "SKILL.md"]) =
      some (content ++ newActionBlock act desc1 (act ++ inferExt code1), m) := by
    simp [implement_action, h, okEnv, readFile, files_ite_makedirs, hmd, hdup, hact, hne1,
      appendFile, chmod, writeFile]
  have h1path : pathExists (implement_action fs root skill act desc1 code1 okEnv).fs
      (root ++ [skill]) = true :=
    pathExists_implement_action_mono fs root skill act desc1 code1 okEnv (root ++ [skill]) h
  have hdup2 : containsSub (content ++ newActionBlock act desc1 (act ++ inferExt code1))
      (actionHeading act) = true :=
    containsSub_append_right _ _ _
      (containsSub_newActionBlock act desc1 (act ++ inferExt code1))
  have hsecond := implement_action_dup_branch
    (implement_action fs root skill act desc1 code1 okEnv).fs root skill act desc2 code2
    (content ++ newActionBlock act desc1 (act ++ inferExt code1)) m h1path h1md hdup2
  refine ⟨h1exit, hsecond.1, hsecond.2.2.1, ?_, hsecond.2.2.2⟩
  rw [hsecond.2.1, h1md]

/-- Witness for C1 (amended) on the demo skill, with a Python first
implementation and a shell second implementation. -/
theorem claim_C1_witness :
    (pathExists demoMdFS (["skills"] ++ ["demo"]) = true ∧
     demoMdFS.files (["skills"] ++ ["demo", "SKILL.md"]) = some ("## Actions\n", 420) ∧
     containsSub "## Actions\n" "## Actions" = true ∧
     containsSub "## Actions\n" (actionHeading "run") = false) ∧
    (implement_action (implement_action demoMdFS ["skills"] "demo" "run" "d1" "import os\n"
        okEnv).fs ["skills"] "demo" "run" "d2" "echo hi\n" okEnv).exit = 0 ∧
    (implement_action (implement_action demoMdFS ["skills"] "demo" "run" "d1" "import os\n"
        okEnv).fs ["skills"] "demo" "run" "d2" "echo hi\n" okEnv).log =
      ["Created script: " ++
        pathStr (["skills"] ++ ["demo", "scripts", "run" ++ inferExt "echo hi\n"]),
       dupWarning "run"] := by
  have h1 : pathExists demoMdFS (["skills"] ++ ["demo"]) = true := by decide
  have h2 : demoMdFS.files (["skills"] ++ ["demo", "SKILL.md"]) =
      some ("## Actions\n", 420) := by decide
  have h3 : containsSub "## Actions\n" "## Actions" = true := by decide
  have h4 : containsSub "## Actions\n" (actionHeading "run") = false := by decide
  exact ⟨⟨h1, h2, h3, h4⟩,
    (claim_C1 demoMdFS ["skills"] "demo" "run" "d1" "import os\n" "d2" "echo hi\n"
      "## Actions\n" 420 h1 h2 h3 h4).2.1,
    (claim_C1 demoMdFS ["skills"] "demo" "run" "d1" "import os\n" "d2" "echo hi\n"
      "## Actions\n" 420 h1 h2 h3 h4).2.2.2.2⟩

end OpenClaw
